import Mathlib

/-!
Verification of the `csv_loader` package (dss-asset-importer): a shallow
embedding of `csv_loader/csv_loader.py`, `csv_loader/mapping_strategies.py`
and `csv_loader/errors.py`, together with theorems settling the
specification's claims about normalization, row mapping, loading and
duplicate detection.
-/

/-! ### Values and field metadata

`prepare_str_value` receives an arbitrary Python value together with the
pydantic `ModelField` of the target attribute.  We model the values that can
reach the validator: strings, booleans, the `None` object, and an opaque
constructor for every other (non-string) Python value. -/

/-- A Python value as seen by the `prepare_str_value` validator. -/
inductive Value where
  | str (s : String)
  | bool (b : Bool)
  | none
  | other
deriving DecidableEq

/-- The declared (inner) type of a pydantic field, i.e. `ModelField.type_`.
For `Optional[T]` pydantic reports the inner `T` here and sets
`required = False`. -/
inductive FieldType where
  | str
  | bool
  | int
  | float
  | other
deriving DecidableEq

/-- `BoolValuePair` from `csv_loader.py`: the configured literals parsed as
boolean true / false. -/
structure BoolValuePair where
  true_ : String
  false_ : String
deriving DecidableEq

/-- The `Config` options consulted by `prepare_str_value`
(`CSVRowDefaultConfig` in `csv_loader.py`). -/
structure Config where
  anystr_strip_whitespace : Bool
  empty_optional_str_fields_to_none : List String
  bool_value_pair : BoolValuePair
deriving DecidableEq

/-- The default configuration `CSVRowDefaultConfig`. -/
def CSVRowDefaultConfig : Config :=
  { anystr_strip_whitespace := Bool.true
    empty_optional_str_fields_to_none := ["__all__"]
    bool_value_pair := { true_ := "1", false_ := "0" } }

/-- The slice of pydantic's `ModelField` read by `prepare_str_value`:
`field.name`, `field.type_` and `field.required`. -/
structure FieldSpec where
  name : String
  type_ : FieldType
  required : Bool
deriving DecidableEq

/-! ### Python `str.strip()`

Removes leading and trailing whitespace.  We model the whitespace class by
`Char.isWhitespace`. -/

/-- Remove the maximal whitespace suffix of a character list. -/
def dropTrail (p : Char → Bool) : List Char → List Char
  | [] => []
  | a :: t =>
    if dropTrail p t = [] then (if p a then [] else [a])
    else a :: dropTrail p t

/-- Python `str.strip()`: drop leading, then trailing, whitespace. -/
def pyStrip (s : String) : String :=
  ⟨dropTrail Char.isWhitespace (s.data.dropWhile Char.isWhitespace)⟩

/-! ### The `prepare_str_value` validator (`CSVRow`, csv_loader.py 55-86) -/

/-- Shallow embedding of `CSVRow.prepare_str_value`.  `cfg` stands for
`cls.Config`, `fld` for the pydantic `ModelField` of the target attribute. -/
def prepare_str_value (cfg : Config) (fld : FieldSpec) (value : Value) : Value :=
  match value with
  | Value.str s =>
    -- strip whitespace if config say so
    let value := if cfg.anystr_strip_whitespace then pyStrip s else s
    -- special handling for bool values
    if fld.type_ = FieldType.bool then
      if value = cfg.bool_value_pair.true_ then Value.bool Bool.true
      else if value = cfg.bool_value_pair.false_ then Value.bool Bool.false
      else Value.none
    -- no special handling for non-empty strings
    else if 0 < value.length then Value.str value
    -- empty value and annotated field type is not string? return None
    else if fld.type_ ≠ FieldType.str then Value.none
    -- if string field is annotated as optional with 0 length, set it to None
    else if ("__all__" ∈ cfg.empty_optional_str_fields_to_none
        ∨ fld.name ∈ cfg.empty_optional_str_fields_to_none)
        ∧ fld.required = Bool.false then Value.none
    else Value.str value
  -- not a string? just return value, pydantic validator will do the rest
  | v => v

example : prepare_str_value CSVRowDefaultConfig
    ⟨"a", FieldType.int, Bool.true⟩ (Value.str "  ") = Value.none := by decide

example : prepare_str_value CSVRowDefaultConfig
    ⟨"a", FieldType.str, Bool.false⟩ (Value.str " x ") = Value.str "x" := by decide

/-! ### Idempotence of stripping -/

theorem dropWhile_dropWhile_same (p : α → Bool) (l : List α) :
    (l.dropWhile p).dropWhile p = l.dropWhile p := by
  induction l with
  | nil => rfl
  | cons a t ih =>
    by_cases h : p a
    · simp [List.dropWhile_cons, h, ih]
    · simp [List.dropWhile_cons, h]

theorem dropWhile_head_false {p : α → Bool} {l : List α} {a : α} {t : List α}
    (h : l.dropWhile p = a :: t) : p a = false := by
  induction l with
  | nil => simp at h
  | cons b u ih =>
    by_cases hb : p b
    · exact ih (by simpa [List.dropWhile_cons, hb] using h)
    · rw [List.dropWhile_cons, if_neg (by simp [hb])] at h
      cases h
      simpa using hb

theorem dropTrail_head {p : Char → Bool} {l : List Char} {a : Char} {t : List Char}
    (h : dropTrail p l = a :: t) : ∃ w, l = a :: w := by
  cases l with
  | nil => simp [dropTrail] at h
  | cons b u =>
    rw [dropTrail] at h
    by_cases hu : dropTrail p u = []
    · rw [if_pos hu] at h
      by_cases hb : p b
      · simp [hb] at h
      · rw [if_neg hb] at h
        cases h
        exact ⟨u, rfl⟩
    · rw [if_neg hu] at h
      cases h
      exact ⟨u, rfl⟩

theorem dropTrail_idem (p : Char → Bool) (l : List Char) :
    dropTrail p (dropTrail p l) = dropTrail p l := by
  induction l with
  | nil => rfl
  | cons a t ih =>
    rw [dropTrail]
    by_cases ht : dropTrail p t = []
    · rw [if_pos ht]
      by_cases ha : p a
      · simp [ha, dropTrail]
      · simp [ha, dropTrail]
    · rw [if_neg ht]
      rw [dropTrail, ih, if_neg ht]

theorem pyStrip_idem (s : String) : pyStrip (pyStrip s) = pyStrip s := by
  unfold pyStrip
  congr 1
  have hA : (dropTrail Char.isWhitespace
      (s.data.dropWhile Char.isWhitespace)).dropWhile Char.isWhitespace
      = dropTrail Char.isWhitespace (s.data.dropWhile Char.isWhitespace) := by
    cases h : dropTrail Char.isWhitespace (s.data.dropWhile Char.isWhitespace) with
    | nil => rfl
    | cons a t =>
      obtain ⟨w, hw⟩ := dropTrail_head h
      have : Char.isWhitespace a = false := dropWhile_head_false hw
      simp [List.dropWhile_cons, this]
  rw [hA, dropTrail_idem]

/-- The stripping step actually performed by `prepare_str_value`. -/
def stripStep (cfg : Config) (s : String) : String :=
  if cfg.anystr_strip_whitespace then pyStrip s else s

theorem stripStep_idem (cfg : Config) (s : String) :
    stripStep cfg (stripStep cfg s) = stripStep cfg s := by
  unfold stripStep
  by_cases h : cfg.anystr_strip_whitespace
  · simp [h, pyStrip_idem]
  · simp [h]

theorem prepare_str_value_str (cfg : Config) (fld : FieldSpec) (s : String) :
    prepare_str_value cfg fld (Value.str s) =
      (if fld.type_ = FieldType.bool then
        if stripStep cfg s = cfg.bool_value_pair.true_ then Value.bool Bool.true
        else if stripStep cfg s = cfg.bool_value_pair.false_ then Value.bool Bool.false
        else Value.none
      else if 0 < (stripStep cfg s).length then Value.str (stripStep cfg s)
      else if fld.type_ ≠ FieldType.str then Value.none
      else if ("__all__" ∈ cfg.empty_optional_str_fields_to_none
          ∨ fld.name ∈ cfg.empty_optional_str_fields_to_none)
          ∧ fld.required = Bool.false then Value.none
      else Value.str (stripStep cfg s)) := rfl

/-- C8: the normalization pass is idempotent — applying `prepare_str_value`
to its own output (same config, same field) returns that output unchanged;
string outputs are already stripped, so re-normalizing them is a no-op. -/
theorem prepare_str_value_idem (cfg : Config) (fld : FieldSpec) (v : Value) :
    prepare_str_value cfg fld (prepare_str_value cfg fld v) =
      prepare_str_value cfg fld v := by
  cases v with
  | bool b => rfl
  | none => rfl
  | other => rfl
  | str s =>
    rw [prepare_str_value_str cfg fld s]
    by_cases hb : fld.type_ = FieldType.bool
    · rw [if_pos hb]
      by_cases h1 : stripStep cfg s = cfg.bool_value_pair.true_
      · rw [if_pos h1]; rfl
      · rw [if_neg h1]
        by_cases h2 : stripStep cfg s = cfg.bool_value_pair.false_
        · rw [if_pos h2]; rfl
        · rw [if_neg h2]; rfl
    · rw [if_neg hb]
      by_cases hlen : 0 < (stripStep cfg s).length
      · rw [if_pos hlen, prepare_str_value_str cfg fld (stripStep cfg s),
          stripStep_idem, if_neg hb, if_pos hlen]
      · rw [if_neg hlen]
        by_cases hstr : fld.type_ ≠ FieldType.str
        · rw [if_pos hstr]; rfl
        · rw [if_neg hstr]
          by_cases helig : ("__all__" ∈ cfg.empty_optional_str_fields_to_none
              ∨ fld.name ∈ cfg.empty_optional_str_fields_to_none)
              ∧ fld.required = Bool.false
          · rw [if_pos helig]; rfl
          · rw [if_neg helig, prepare_str_value_str cfg fld (stripStep cfg s),
              stripStep_idem, if_neg hb, if_neg hlen, if_neg hstr, if_neg helig]

/-- C1 counterexample: the claim fails as stated.  First input: stripping
disabled, integer field, value `" "` — its whitespace-stripped form is empty
and the type is not string, yet the validator returns `" "` (not absent),
because only the configured stripping step is applied.  Second input:
boolean field with configured true-literal `""` — the empty value matches the
boolean literal and returns `true`, not absent. -/
theorem prepare_str_value_empty_nonstr_cex :
    (pyStrip " " = "" ∧
      prepare_str_value
        ⟨Bool.false, ["__all__"], ⟨"1", "0"⟩⟩
        ⟨"n", FieldType.int, Bool.true⟩ (Value.str " ") = Value.str " ") ∧
    prepare_str_value
        ⟨Bool.true, ["__all__"], ⟨"", "0"⟩⟩
        ⟨"b", FieldType.bool, Bool.true⟩ (Value.str "") = Value.bool Bool.true := by
  decide

/-- C1 (amended): when the value left by the configured stripping step (the
raw value itself if stripping is disabled) is empty: for a field whose
declared type is neither string nor boolean the validator returns absent
regardless of required/optional; for a boolean field the boolean rule applies
first (absent unless the empty string equals a configured literal); for a
string field it returns absent only if the field is optional and named in the
configured eligible set (or that set contains `"__all__"`), and otherwise
returns the empty string unchanged. -/
theorem prepare_str_value_empty (cfg : Config) (fld : FieldSpec) (s : String)
    (h : stripStep cfg s = "") :
    (fld.type_ ≠ FieldType.str → fld.type_ ≠ FieldType.bool →
      prepare_str_value cfg fld (Value.str s) = Value.none) ∧
    (fld.type_ = FieldType.bool →
      prepare_str_value cfg fld (Value.str s) =
        (if "" = cfg.bool_value_pair.true_ then Value.bool Bool.true
         else if "" = cfg.bool_value_pair.false_ then Value.bool Bool.false
         else Value.none)) ∧
    (fld.type_ = FieldType.str →
      prepare_str_value cfg fld (Value.str s) =
        (if ("__all__" ∈ cfg.empty_optional_str_fields_to_none
            ∨ fld.name ∈ cfg.empty_optional_str_fields_to_none)
            ∧ fld.required = Bool.false
         then Value.none else Value.str "")) := by
  have hlen : ¬ 0 < (stripStep cfg s).length := by rw [h]; decide
  refine ⟨?_, ?_, ?_⟩
  · intro hstr hbool
    rw [prepare_str_value_str, if_neg hbool, if_neg hlen, if_pos hstr]
  · intro hbool
    rw [prepare_str_value_str, if_pos hbool, h]
  · intro hstr
    rw [prepare_str_value_str, if_neg (by rw [hstr]; decide),
      if_neg hlen, if_neg (by rw [hstr]; decide), h]

/-- Witness for the amended C1 theorem at a concrete input. -/
theorem prepare_str_value_empty_witness :
    stripStep CSVRowDefaultConfig " " = "" ∧
    prepare_str_value CSVRowDefaultConfig ⟨"n", FieldType.int, Bool.true⟩
      (Value.str " ") = Value.none :=
  ⟨by decide,
    (prepare_str_value_empty CSVRowDefaultConfig
      ⟨"n", FieldType.int, Bool.true⟩ " " (by decide)).1 (by decide) (by decide)⟩

/-- C6 counterexample: with the configured pair `("X", "X")` the value `"X"`
equals the configured false-literal, yet the validator returns `true`
(the true-literal is compared first), so the claim fails as stated. -/
theorem prepare_str_value_bool_cex :
    (⟨"X", "X"⟩ : BoolValuePair).false_ = "X" ∧
    prepare_str_value ⟨Bool.true, ["__all__"], ⟨"X", "X"⟩⟩
      ⟨"b", FieldType.bool, Bool.true⟩ (Value.str "X") = Value.bool Bool.true := by
  decide

/-- C6 (amended): for a boolean field (required or optional), after the
configured stripping step the validator returns `true` when the value equals
the configured true-literal, `false` when it equals the configured
false-literal and differs from the true-literal (the true-literal is checked
first), and absent on any other value, including the empty string. -/
theorem prepare_str_value_bool (cfg : Config) (fld : FieldSpec) (s : String)
    (hb : fld.type_ = FieldType.bool) :
    (stripStep cfg s = cfg.bool_value_pair.true_ →
      prepare_str_value cfg fld (Value.str s) = Value.bool Bool.true) ∧
    (stripStep cfg s ≠ cfg.bool_value_pair.true_ →
      stripStep cfg s = cfg.bool_value_pair.false_ →
      prepare_str_value cfg fld (Value.str s) = Value.bool Bool.false) ∧
    (stripStep cfg s ≠ cfg.bool_value_pair.true_ →
      stripStep cfg s ≠ cfg.bool_value_pair.false_ →
      prepare_str_value cfg fld (Value.str s) = Value.none) := by
  refine ⟨?_, ?_, ?_⟩
  · intro h1
    rw [prepare_str_value_str, if_pos hb, if_pos h1]
  · intro h1 h2
    rw [prepare_str_value_str, if_pos hb, if_neg h1, if_pos h2]
  · intro h1 h2
    rw [prepare_str_value_str, if_pos hb, if_neg h1, if_neg h2]

/-- Witness for the amended C6 theorem at a concrete input
(the pair `("YES", "NO")` of the spec's example). -/
theorem prepare_str_value_bool_witness :
    prepare_str_value ⟨Bool.true, ["__all__"], ⟨"YES", "NO"⟩⟩
      ⟨"b", FieldType.bool, Bool.false⟩ (Value.str " YES ") =
      Value.bool Bool.true :=
  (prepare_str_value_bool ⟨Bool.true, ["__all__"], ⟨"YES", "NO"⟩⟩
    ⟨"b", FieldType.bool, Bool.false⟩ " YES " rfl).1 (by decide)

/-! ### Python dictionaries as insertion-ordered association lists

`dict(zip(keys, values))` and the mutations performed by
`MappingStrategyByHeader._remap_header_mapping` are modelled on association
lists with Python's semantics: assignment to an existing key updates it in
place, assignment to a fresh key appends at the end, `pop` removes the
entry. -/

/-- Python `d[k] = v`: update in place if `k` is a key, else append. -/
def dictInsert (k : String) (v : β) : List (String × β) → List (String × β)
  | [] => [(k, v)]
  | (k', v') :: rest =>
    if k' = k then (k', v) :: rest else (k', v') :: dictInsert k v rest

/-- Python `k in d` / `d.get(k)`: the value at the first matching key. -/
def dictGet? (k : String) : List (String × β) → Option β
  | [] => Option.none
  | (k', v') :: rest => if k' = k then Option.some v' else dictGet? k rest

/-- Python `d.pop(k)`: drop the entry with key `k`. -/
def dictRemove (k : String) : List (String × β) → List (String × β)
  | [] => []
  | (k', v') :: rest =>
    if k' = k then rest else (k', v') :: dictRemove k rest

/-- Python `dict(pairs)`: insert the pairs left to right into an empty dict. -/
def pyDict (pairs : List (String × β)) : List (String × β) :=
  pairs.foldl (fun d kv => dictInsert kv.1 kv.2 d) []

/-! ### Mapping strategies (`mapping_strategies.py`) -/

/-- `HeaderRemapField` from `mapping_strategies.py`. -/
structure HeaderRemapField where
  header_field : String
  model_attr : String
deriving DecidableEq

/-- The `MappingStrategyError` hierarchy from `errors.py`:
`HeaderNotSetError` and `IndexOutOfHeaderBounds`. -/
inductive MappingStrategyError where
  | headerNotSetError
  | indexOutOfHeaderBounds
deriving DecidableEq

/-- The two mapping-strategy classes.  `byModelFieldOrder` carries
`model_cls.__fields__.keys()` (the model's declared field names, in
declaration order); `byHeader` carries the optional `header_remap_fields`. -/
inductive MappingStrategy where
  | byModelFieldOrder (field_names : List String)
  | byHeader (header_remap : Option (List HeaderRemapField))
deriving DecidableEq

/-- `MappingStrategyByHeader._remap_header_mapping`: for each remap entry
whose `header_field` is a key, pop it and assign the value to `model_attr`. -/
def remap_header_mapping (header_mapping : List (String × β)) :
    Option (List HeaderRemapField) → List (String × β)
  | Option.none => header_mapping
  | Option.some remap =>
    remap.foldl
      (fun d rf =>
        match dictGet? rf.header_field d with
        | Option.none => d
        | Option.some v => dictInsert rf.model_attr v (dictRemove rf.header_field d))
      header_mapping

/-- `create_model_param_dict` of both strategies.  `hdr` is the strategy's
current `self.header` state (set by `set_header`; `[]` when never set, which
Python's `if not self.header` cannot distinguish from a captured empty
header).  The by-model-field-order strategy ignores it. -/
def create_model_param_dict (strat : MappingStrategy) (hdr : List String)
    (row_values : List String) :
    Except MappingStrategyError (List (String × String)) :=
  match strat with
  | MappingStrategy.byModelFieldOrder field_names =>
    -- map model field names as dict keys
    Except.ok (pyDict (field_names.zip row_values))
  | MappingStrategy.byHeader header_remap =>
    -- header not set? stop! hammer time!
    if hdr = [] then Except.error MappingStrategyError.headerNotSetError
    -- header too short, can't do
    else if hdr.length < row_values.length then
      Except.error MappingStrategyError.indexOutOfHeaderBounds
    -- map header values as dict keys
    else Except.ok (remap_header_mapping (pyDict (hdr.zip row_values)) header_remap)

/-! ### `dict(zip(keys, values))` with distinct keys is the zip itself -/

theorem dictInsert_fresh (k : String) (v : β) (d : List (String × β))
    (h : k ∉ d.map Prod.fst) : dictInsert k v d = d ++ [(k, v)] := by
  induction d with
  | nil => rfl
  | cons kv rest ih =>
    simp only [List.map_cons, List.mem_cons] at h
    push_neg at h
    rw [dictInsert, if_neg (fun hk => h.1 hk.symm), ih h.2]
    rfl

theorem foldl_dictInsert (l : List (String × β)) :
    ∀ d : List (String × β), (d.map Prod.fst ++ l.map Prod.fst).Nodup →
      l.foldl (fun d kv => dictInsert kv.1 kv.2 d) d = d ++ l := by
  induction l with
  | nil => intro d _; simp
  | cons kv rest ih =>
    intro d h
    simp only [List.map_cons] at h
    have hdis := (List.nodup_append.mp h).2.2
    have hk : kv.1 ∉ d.map Prod.fst := fun hin => hdis hin (List.mem_cons_self _ _)
    rw [List.foldl_cons, dictInsert_fresh kv.1 kv.2 d hk]
    rw [ih (d ++ [(kv.1, kv.2)]) (by simpa using h)]
    simp

theorem pyDict_eq_self (l : List (String × β)) (h : (l.map Prod.fst).Nodup) :
    pyDict l = l := by
  have := foldl_dictInsert l [] (by simpa using h)
  simpa [pyDict] using this

theorem zip_map_fst_take (l₁ : List α) (l₂ : List β) :
    (l₁.zip l₂).map Prod.fst = l₁.take l₂.length := by
  induction l₁ generalizing l₂ with
  | nil => simp
  | cons a t ih =>
    cases l₂ with
    | nil => simp
    | cons b u => simp [List.zip_cons_cons, ih]

theorem zip_map_snd_take (l₁ : List α) (l₂ : List β) :
    (l₁.zip l₂).map Prod.snd = l₂.take l₁.length := by
  induction l₁ generalizing l₂ with
  | nil => simp
  | cons a t ih =>
    cases l₂ with
    | nil => simp
    | cons b u => simp [List.zip_cons_cons, ih]

/-- C4: the positional-order strategy returns exactly the zip of the model's
declared field names (in declaration order) with the row's cell values:
surplus cells are dropped, declared fields beyond the number of cells are
left out of the mapping. -/
theorem create_model_param_dict_byModelFieldOrder (field_names : List String)
    (hdr : List String) (row_values : List String) (h : field_names.Nodup) :
    create_model_param_dict (MappingStrategy.byModelFieldOrder field_names)
        hdr row_values = Except.ok (field_names.zip row_values) ∧
    (field_names.zip row_values).map Prod.fst =
        field_names.take row_values.length ∧
    (field_names.zip row_values).map Prod.snd =
        row_values.take field_names.length := by
  refine ⟨?_, zip_map_fst_take _ _, zip_map_snd_take _ _⟩
  rw [create_model_param_dict]
  rw [pyDict_eq_self]
  rw [zip_map_fst_take]
  exact h.sublist (List.take_sublist _ _)

/-- Witness for the C4 theorem: fields `[a, b, c]` with row `[1, 2]` —
`c` is left out of the mapping. -/
theorem create_model_param_dict_byModelFieldOrder_witness :
    create_model_param_dict (MappingStrategy.byModelFieldOrder ["a", "b", "c"])
        [] ["1", "2"] = Except.ok (List.zip ["a", "b", "c"] ["1", "2"]) ∧
    (List.zip ["a", "b", "c"] ["1", "2"]).map Prod.fst =
        List.take (List.length ["1", "2"]) ["a", "b", "c"] ∧
    (List.zip ["a", "b", "c"] ["1", "2"]).map Prod.snd =
        List.take (List.length ["a", "b", "c"]) ["1", "2"] :=
  create_model_param_dict_byModelFieldOrder ["a", "b", "c"] [] ["1", "2"]
    (by decide)

/-! ### The loader (`CSVLoader.read_rows`, csv_loader.py 196-237)

The loader is generic in the output model class; we abstract pydantic model
construction (`output_model_cls(**kwargs)`) as a function `build` returning
either a model (type `α`) or a `ValidationError` (abstract payload type
`ε`). -/

/-- The exception classes caught by `read_rows`'s `except` clause:
`MappingStrategyError` raised by the strategy, or pydantic's
`ValidationError` (abstracted as `ε`) raised by model construction. -/
inductive RowError (ε : Type) where
  | mapping (e : MappingStrategyError)
  | validation (e : ε)
deriving DecidableEq

/-- `CSVValidationError` from `errors.py`. -/
structure CSVValidationError (ε : Type) where
  line_number : Nat
  original_error : RowError ε
deriving DecidableEq

/-- `CSVLoaderResult` from `csv_loader.py`. -/
structure CSVLoaderResult (α ε : Type) where
  rows : List α
  errors : List (CSVValidationError ε)
  header : List String
deriving DecidableEq

/-- `CSVLoaderResult.has_errors`: `len(self.errors) > 0`. -/
def CSVLoaderResult.has_errors (r : CSVLoaderResult α ε) : Bool :=
  decide (0 < r.errors.length)

/-- The body of `read_rows`'s `try` block for one data row: build the model
params via the mapping strategy, then construct the output model. -/
def rowOutcome (strat : MappingStrategy) (hdr : List String)
    (build : List (String × String) → Except ε α) (row : List String) :
    Except (RowError ε) α :=
  match create_model_param_dict strat hdr row with
  | Except.error e => Except.error (RowError.mapping e)
  | Except.ok kwargs =>
    match build kwargs with
    | Except.error e => Except.error (RowError.validation e)
    | Except.ok m => Except.ok m

/-- The loop of `CSVLoader.read_rows`, one source row at a time.  `n` is the
`enumerate` index, `hdr` the mapping strategy's current header state
(`set_header`), `acc` the result object accumulated so far.  In fail-fast
mode (`aggregate = false`) the raised `CSVValidationError` is the
`Except.error` outcome. -/
def read_rows_go (has_header aggregate : Bool) (strat : MappingStrategy)
    (build : List (String × String) → Except ε α) :
    List (List String) → Nat → List String → CSVLoaderResult α ε →
      Except (CSVValidationError ε) (CSVLoaderResult α ε)
  | [], _, _, acc => Except.ok acc
  | row :: rest, n, hdr, acc =>
    -- skip header, if configured and first line
    if has_header = Bool.true ∧ n = 0 then
      -- strip header field names
      let h := row.map pyStrip
      read_rows_go has_header aggregate strat build rest (n + 1) h
        { acc with header := h }
    -- skip empty lines
    else if row = [] then
      read_rows_go has_header aggregate strat build rest (n + 1) hdr acc
    else
      match rowOutcome strat hdr build row with
      | Except.ok row_model =>
        read_rows_go has_header aggregate strat build rest (n + 1) hdr
          { acc with rows := acc.rows ++ [row_model] }
      | Except.error e =>
        if aggregate = Bool.true then
          -- if we're aggregating errors, just add exception to the list
          read_rows_go has_header aggregate strat build rest (n + 1) hdr
            { acc with errors := acc.errors ++ [⟨n, e⟩] }
        -- else just raise error and stop reading rows
        else Except.error ⟨n, e⟩

/-- `CSVLoader.read_rows`, starting from a fresh `CSVLoaderResult` and an
unset strategy header. -/
def read_rows (has_header aggregate : Bool) (strat : MappingStrategy)
    (build : List (String × String) → Except ε α)
    (reader : List (List String)) :
    Except (CSVValidationError ε) (CSVLoaderResult α ε) :=
  read_rows_go has_header aggregate strat build reader 0 [] ⟨[], [], []⟩

/-! ### Specification-level reference model of a load

`specProcess` follows the spec's words for the data-row phase (spec §4.4):
skip zero-cell rows; every other row contributes either its record or one
error carrying the current enumeration index, in encounter order.
`specLoadAgg` adds the header phase of spec §4.4 for a whole aggregate-mode
load. -/

/-- Spec-level description of the loader's data-row phase. -/
def specProcess (strat : MappingStrategy) (hdr : List String)
    (build : List (String × String) → Except ε α) :
    List (List String) → Nat → List α × List (CSVValidationError ε)
  | [], _ => ([], [])
  | row :: rest, n =>
    let r := specProcess strat hdr build rest (n + 1)
    if row = [] then r
    else
      match rowOutcome strat hdr build row with
      | Except.ok m => (m :: r.1, r.2)
      | Except.error e => (r.1, ⟨n, e⟩ :: r.2)

/-- Spec-level description of a whole aggregate-mode load: the first source
row is consumed as the (whitespace-trimmed) header when header mode is on;
every other row is processed by `specProcess` with indices continuing the
raw enumeration. -/
def specLoadAgg (has_header : Bool) (strat : MappingStrategy)
    (build : List (String × String) → Except ε α)
    (reader : List (List String)) : CSVLoaderResult α ε :=
  if has_header = Bool.true then
    match reader with
    | [] => ⟨[], [], []⟩
    | r0 :: rest =>
      ⟨(specProcess strat (r0.map pyStrip) build rest 1).1,
       (specProcess strat (r0.map pyStrip) build rest 1).2,
       r0.map pyStrip⟩
  else
    ⟨(specProcess strat [] build reader 0).1,
     (specProcess strat [] build reader 0).2, []⟩

/-- The header the mapping strategy holds during the data-row phase. -/
def specHeader (has_header : Bool) (reader : List (List String)) :
    List String :=
  if has_header = Bool.true then (reader.headD []).map pyStrip else []

/-! ### Characterization of the aggregate-mode loop -/

theorem read_rows_go_agg (has_header : Bool) (strat : MappingStrategy)
    (build : List (String × String) → Except ε α) :
    ∀ (rows : List (List String)) (n : Nat) (hdr : List String)
      (acc : CSVLoaderResult α ε), ¬(has_header = Bool.true ∧ n = 0) →
      read_rows_go has_header Bool.true strat build rows n hdr acc =
        Except.ok ⟨acc.rows ++ (specProcess strat hdr build rows n).1,
          acc.errors ++ (specProcess strat hdr build rows n).2, acc.header⟩ := by
  intro rows
  induction rows with
  | nil => intro n hdr acc _; simp [read_rows_go, specProcess]
  | cons row rest ih =>
    intro n hdr acc h
    by_cases hrow : row = []
    · rw [read_rows_go, if_neg h, if_pos hrow, ih (n + 1) hdr acc (by simp)]
      simp [specProcess, hrow]
    · cases ho : rowOutcome strat hdr build row with
      | ok m =>
        rw [read_rows_go, if_neg h, if_neg hrow]
        simp only [ho]
        rw [ih (n + 1) hdr _ (by simp)]
        simp [specProcess, hrow, ho]
      | error e =>
        rw [read_rows_go, if_neg h, if_neg hrow]
        simp only [ho]
        rw [if_pos trivial, ih (n + 1) hdr _ (by simp)]
        simp [specProcess, hrow, ho]

theorem read_rows_agg_eq_spec (has_header : Bool) (strat : MappingStrategy)
    (build : List (String × String) → Except ε α)
    (reader : List (List String)) :
    read_rows has_header Bool.true strat build reader =
      Except.ok (specLoadAgg has_header strat build reader) := by
  cases hh : has_header with
  | false =>
    rw [read_rows, read_rows_go_agg Bool.false strat build reader 0 []
      ⟨[], [], []⟩ (by simp)]
    simp [specLoadAgg]
  | true =>
    cases reader with
    | nil => simp [read_rows, read_rows_go, specLoadAgg]
    | cons r0 rest =>
      rw [read_rows, read_rows_go, if_pos ⟨rfl, rfl⟩,
        read_rows_go_agg Bool.true strat build rest 1 (r0.map pyStrip)
          _ (by simp)]
      simp [specLoadAgg]

/-! ### Positions of the collected errors -/

theorem specProcess_errors_ge (strat : MappingStrategy) (hdr : List String)
    (build : List (String × String) → Except ε α) :
    ∀ (rows : List (List String)) (n : Nat),
      ∀ e ∈ (specProcess strat hdr build rows n).2, n ≤ e.line_number := by
  intro rows
  induction rows with
  | nil => intro n e he; simp [specProcess] at he
  | cons row rest ih =>
    intro n e he
    rw [specProcess] at he
    by_cases hrow : row = []
    · rw [if_pos hrow] at he
      exact Nat.le_of_succ_le (ih (n + 1) e he)
    · rw [if_neg hrow] at he
      cases ho : rowOutcome strat hdr build row with
      | ok m =>
        rw [ho] at he
        exact Nat.le_of_succ_le (ih (n + 1) e he)
      | error e0 =>
        rw [ho] at he
        rcases List.mem_cons.mp he with h1 | h1
        · rw [h1]
        · exact Nat.le_of_succ_le (ih (n + 1) e h1)

theorem specProcess_errors_sorted (strat : MappingStrategy) (hdr : List String)
    (build : List (String × String) → Except ε α) :
    ∀ (rows : List (List String)) (n : Nat),
      List.Pairwise (fun e₁ e₂ : CSVValidationError ε =>
        e₁.line_number < e₂.line_number) (specProcess strat hdr build rows n).2 := by
  intro rows
  induction rows with
  | nil => intro n; simp [specProcess]
  | cons row rest ih =>
    intro n
    rw [specProcess]
    by_cases hrow : row = []
    · rw [if_pos hrow]; exact ih (n + 1)
    · rw [if_neg hrow]
      cases ho : rowOutcome strat hdr build row with
      | ok m => exact ih (n + 1)
      | error e0 =>
        refine List.pairwise_cons.mpr ⟨?_, ih (n + 1)⟩
        intro e' he'
        exact Nat.lt_of_succ_le (specProcess_errors_ge strat hdr build rest (n + 1) e' he')

/-- C2: in aggregate mode `read_rows` returns normally; the result is exactly
the spec-level description `specLoadAgg` — every successfully validated row
present in source order, one `CSVValidationError` per failed row and none for
successful rows; the errors are in encounter order (strictly increasing
enumeration indices); and `has_errors` is true iff at least one row failed. -/
theorem read_rows_aggregate (strat : MappingStrategy)
    (build : List (String × String) → Except ε α) (has_header : Bool)
    (reader : List (List String)) :
    read_rows has_header Bool.true strat build reader =
      Except.ok (specLoadAgg has_header strat build reader) ∧
    List.Pairwise (fun e₁ e₂ : CSVValidationError ε =>
      e₁.line_number < e₂.line_number)
      (specLoadAgg has_header strat build reader).errors ∧
    ((specLoadAgg has_header strat build reader).has_errors = Bool.true ↔
      (specLoadAgg has_header strat build reader).errors ≠ []) := by
  refine ⟨read_rows_agg_eq_spec has_header strat build reader, ?_, ?_⟩
  · rw [specLoadAgg.eq_def]
    by_cases hh : has_header = Bool.true
    · rw [if_pos hh]
      cases reader with
      | nil => simp
      | cons r0 rest => exact specProcess_errors_sorted strat _ build rest 1
    · rw [if_neg hh]
      exact specProcess_errors_sorted strat [] build reader 0
  · rw [CSVLoaderResult.has_errors]
    cases (specLoadAgg has_header strat build reader).errors with
    | nil => simp
    | cons e es => simp

/-! ### Characterization of the fail-fast loop -/

theorem read_rows_go_ff (has_header : Bool) (strat : MappingStrategy)
    (build : List (String × String) → Except ε α) :
    ∀ (rows : List (List String)) (n : Nat) (hdr : List String)
      (acc : CSVLoaderResult α ε), ¬(has_header = Bool.true ∧ n = 0) →
      read_rows_go has_header Bool.false strat build rows n hdr acc =
        (match (specProcess strat hdr build rows n).2 with
         | [] => Except.ok ⟨acc.rows ++ (specProcess strat hdr build rows n).1,
             acc.errors, acc.header⟩
         | e :: _ => Except.error e) := by
  intro rows
  induction rows with
  | nil => intro n hdr acc _; simp [read_rows_go, specProcess]
  | cons row rest ih =>
    intro n hdr acc h
    by_cases hrow : row = []
    · rw [read_rows_go, if_neg h, if_pos hrow, ih (n + 1) hdr acc (by simp)]
      rw [specProcess, if_pos hrow]
    · cases ho : rowOutcome strat hdr build row with
      | ok m =>
        rw [read_rows_go, if_neg h, if_neg hrow]
        simp only [ho]
        rw [ih (n + 1) hdr _ (by simp)]
        rw [specProcess, if_neg hrow]
        simp only [ho]
        cases (specProcess strat hdr build rest (n + 1)).2 with
        | nil => simp
        | cons e es => simp
      | error e =>
        rw [read_rows_go, if_neg h, if_neg hrow]
        simp only [ho]
        rw [if_neg (by simp), specProcess, if_neg hrow]
        simp only [ho]

theorem specProcess_head_error (has_header : Bool) (strat : MappingStrategy)
    (hdr : List String) (build : List (String × String) → Except ε α) :
    ∀ (rows : List (List String)) (n : Nat) (e : CSVValidationError ε)
      (es : List (CSVValidationError ε)),
      (specProcess strat hdr build rows n).2 = e :: es →
      ∀ ext : List (List String),
        ∀ acc : CSVLoaderResult α ε, ¬(has_header = Bool.true ∧ n = 0) →
        read_rows_go has_header Bool.false strat build
          (rows.take (e.line_number + 1 - n) ++ ext) n hdr acc =
          Except.error e := by
  intro rows
  induction rows with
  | nil => intro n e es hspec; simp [specProcess] at hspec
  | cons row rest ih =>
    intro n e es hspec ext acc h
    rw [specProcess] at hspec
    by_cases hrow : row = []
    · rw [if_pos hrow] at hspec
      have hge := specProcess_errors_ge strat hdr build rest (n + 1) e
        (by rw [hspec]; exact List.mem_cons_self _ _)
      have htake : (row :: rest).take (e.line_number + 1 - n) =
          row :: rest.take (e.line_number + 1 - (n + 1)) := by
        have h2 : e.line_number + 1 - n = (e.line_number + 1 - (n + 1)) + 1 := by
          omega
        rw [h2, List.take_succ_cons]
      rw [htake, List.cons_append, read_rows_go, if_neg h, if_pos hrow]
      exact ih (n + 1) e es hspec ext acc (by simp)
    · rw [if_neg hrow] at hspec
      cases ho : rowOutcome strat hdr build row with
      | ok m =>
        rw [ho] at hspec
        have hge := specProcess_errors_ge strat hdr build rest (n + 1) e
          (by rw [hspec]; exact List.mem_cons_self _ _)
        have htake : (row :: rest).take (e.line_number + 1 - n) =
            row :: rest.take (e.line_number + 1 - (n + 1)) := by
          have h2 : e.line_number + 1 - n = (e.line_number + 1 - (n + 1)) + 1 := by
            omega
          rw [h2, List.take_succ_cons]
        rw [htake, List.cons_append, read_rows_go, if_neg h, if_neg hrow]
        simp only [ho]
        exact ih (n + 1) e es hspec ext _ (by simp)
      | error e0 =>
        rw [ho] at hspec
        have he : e = ⟨n, e0⟩ := by
          injection hspec with h1 h2
          exact h1.symm
        have htake : (row :: rest).take (e.line_number + 1 - n) = [row] := by
          rw [he]
          simp
        rw [htake, List.cons_append, List.nil_append, read_rows_go,
          if_neg h, if_neg hrow]
        simp only [ho]
        rw [if_neg (by simp), he]

/-- C3: with aggregate-errors off, a source containing a failing data row
makes `read_rows` raise exactly the `CSVValidationError` of the first failing
row (carrying its raw enumeration index); no result object is returned, and
no source row past the failing one matters: any continuation of the source
beyond the failing row yields the very same raised error. -/
theorem read_rows_failfast (strat : MappingStrategy)
    (build : List (String × String) → Except ε α) (has_header : Bool)
    (reader : List (List String)) (e : CSVValidationError ε)
    (h : (specLoadAgg has_header strat build reader).errors.head? =
      Option.some e) :
    read_rows has_header Bool.false strat build reader = Except.error e ∧
    ∀ ext : List (List String),
      read_rows has_header Bool.false strat build
        (reader.take (e.line_number + 1) ++ ext) = Except.error e := by
  by_cases hh : has_header = Bool.true
  · cases reader with
    | nil =>
      rw [specLoadAgg, if_pos hh] at h
      simp at h
    | cons r0 rest =>
      rw [specLoadAgg, if_pos hh] at h
      have hspec : ∃ es, (specProcess strat (r0.map pyStrip) build rest 1).2 =
          e :: es := by
        cases hc : (specProcess strat (r0.map pyStrip) build rest 1).2 with
        | nil => rw [hc] at h; simp at h
        | cons a t =>
          rw [hc] at h
          simp only [List.head?_cons, Option.some.injEq] at h
          exact ⟨t, by rw [h]⟩
      obtain ⟨es, hspec⟩ := hspec
      have hge := specProcess_errors_ge strat (r0.map pyStrip) build rest 1 e
        (by rw [hspec]; exact List.mem_cons_self _ _)
      subst hh
      constructor
      · rw [read_rows, read_rows_go, if_pos ⟨rfl, rfl⟩,
          read_rows_go_ff Bool.true strat build rest 1 (r0.map pyStrip)
            _ (by simp), hspec]
      · intro ext
        obtain ⟨k, hk⟩ : ∃ k, e.line_number = k + 1 :=
          ⟨e.line_number - 1, by omega⟩
        have htake : (r0 :: rest).take (e.line_number + 1) =
            r0 :: rest.take (e.line_number + 1 - 1) := by
          rw [hk, List.take_succ_cons]
          norm_num
        rw [htake, List.cons_append, read_rows, read_rows_go, if_pos ⟨rfl, rfl⟩]
        exact specProcess_head_error Bool.true strat (r0.map pyStrip) build
          rest 1 e es hspec ext _ (by simp)
  · rw [specLoadAgg.eq_def, if_neg hh] at h
    have hspec : ∃ es, (specProcess strat [] build reader 0).2 = e :: es := by
      cases hc : (specProcess strat [] build reader 0).2 with
      | nil => rw [hc] at h; simp at h
      | cons a t =>
        rw [hc] at h
        simp only [List.head?_cons, Option.some.injEq] at h
        exact ⟨t, by rw [h]⟩
    obtain ⟨es, hspec⟩ := hspec
    constructor
    · rw [read_rows, read_rows_go_ff has_header strat build reader 0 []
        _ (by simp [hh]), hspec]
    · intro ext
      rw [read_rows]
      have := specProcess_head_error has_header strat [] build
        reader 0 e es hspec ext ⟨[], [], []⟩ (by simp [hh])
      simpa using this

/-- Witness for the C3 theorem: a one-row source whose row fails validation,
loaded fail-fast. -/
theorem read_rows_failfast_witness :
    read_rows Bool.false Bool.false (MappingStrategy.byModelFieldOrder ["a"])
        (fun _ => (Except.error () : Except Unit Nat)) [["x"]] =
      Except.error ⟨0, RowError.validation ()⟩ :=
  (read_rows_failfast (MappingStrategy.byModelFieldOrder ["a"])
    (fun _ => (Except.error () : Except Unit Nat)) Bool.false [["x"]]
    ⟨0, RowError.validation ()⟩ (by decide)).1

/-! ### Where each collected error points back into the source -/

theorem specProcess_errors_mem (strat : MappingStrategy) (hdr : List String)
    (build : List (String × String) → Except ε α) :
    ∀ (rows : List (List String)) (n : Nat) (e : CSVValidationError ε),
      e ∈ (specProcess strat hdr build rows n).2 →
      n ≤ e.line_number ∧
      ∃ row, rows.get? (e.line_number - n) = Option.some row ∧ row ≠ [] ∧
        rowOutcome strat hdr build row = Except.error e.original_error := by
  intro rows
  induction rows with
  | nil => intro n e he; simp [specProcess] at he
  | cons row rest ih =>
    intro n e he
    rw [specProcess] at he
    by_cases hrow : row = []
    · rw [if_pos hrow] at he
      obtain ⟨hge, row', hget, hne, hout⟩ := ih (n + 1) e he
      refine ⟨by omega, row', ?_, hne, hout⟩
      have hidx : e.line_number - n = (e.line_number - (n + 1)) + 1 := by omega
      rw [hidx, List.get?_cons_succ]
      exact hget
    · rw [if_neg hrow] at he
      cases ho : rowOutcome strat hdr build row with
      | ok m =>
        rw [ho] at he
        obtain ⟨hge, row', hget, hne, hout⟩ := ih (n + 1) e he
        refine ⟨by omega, row', ?_, hne, hout⟩
        have hidx : e.line_number - n = (e.line_number - (n + 1)) + 1 := by omega
        rw [hidx, List.get?_cons_succ]
        exact hget
      | error e0 =>
        rw [ho] at he
        rcases List.mem_cons.mp he with h1 | h1
        · subst h1
          exact ⟨Nat.le_refl n, row, by simp, hrow, ho⟩
        · obtain ⟨hge, row', hget, hne, hout⟩ := ih (n + 1) e h1
          refine ⟨by omega, row', ?_, hne, hout⟩
          have hidx : e.line_number - n = (e.line_number - (n + 1)) + 1 := by omega
          rw [hidx, List.get?_cons_succ]
          exact hget

/-- C9: every `CSVValidationError` collected by an aggregate-mode
`read_rows` carries the 0-based position of its failing row in the raw
enumeration of the source (which counts the consumed header row and skipped
empty rows); in particular, with header mode on, a failing first data row is
reported with `line_number` 1, not 0. -/
theorem read_rows_error_line_numbers (strat : MappingStrategy)
    (build : List (String × String) → Except ε α) (has_header : Bool)
    (reader : List (List String)) (res : CSVLoaderResult α ε)
    (h : read_rows has_header Bool.true strat build reader = Except.ok res) :
    (∀ e ∈ res.errors, ∃ row,
      reader.get? e.line_number = Option.some row ∧ row ≠ [] ∧
      ¬(has_header = Bool.true ∧ e.line_number = 0) ∧
      rowOutcome strat (specHeader has_header reader) build row =
        Except.error e.original_error) ∧
    (has_header = Bool.true → ∀ (r1 : List String) (err : RowError ε),
      reader.get? 1 = Option.some r1 → r1 ≠ [] →
      rowOutcome strat (specHeader Bool.true reader) build r1 =
        Except.error err →
      res.errors.head? = Option.some ⟨1, err⟩) := by
  have hres : res = specLoadAgg has_header strat build reader := by
    have h2 := (read_rows_agg_eq_spec has_header strat build reader).symm.trans h
    injection h2 with h3
    exact h3.symm
  subst hres
  by_cases hh : has_header = Bool.true
  · subst hh
    cases reader with
    | nil =>
      constructor
      · intro e he
        rw [specLoadAgg, if_pos rfl] at he
        simp at he
      · intro _ r1 err hget
        simp at hget
    | cons r0 rest =>
      have hsh : specHeader Bool.true (r0 :: rest) = r0.map pyStrip := by
        rw [specHeader, if_pos rfl]
        simp
      have herr : (specLoadAgg Bool.true strat build (r0 :: rest)).errors =
          (specProcess strat (r0.map pyStrip) build rest 1).2 := by
        rw [specLoadAgg, if_pos rfl]
      constructor
      · intro e he
        rw [herr] at he
        obtain ⟨hge, row, hget, hne, hout⟩ :=
          specProcess_errors_mem strat (r0.map pyStrip) build rest 1 e he
        refine ⟨row, ?_, hne, by omega, by rw [hsh]; exact hout⟩
        have hidx : e.line_number = (e.line_number - 1) + 1 := by omega
        rw [hidx, List.get?_cons_succ]
        exact hget
      · intro _ r1 err hget hne hout
        rw [List.get?_cons_succ] at hget
        cases rest with
        | nil => simp at hget
        | cons r1' rest' =>
          rw [List.get?_cons_zero, Option.some.injEq] at hget
          subst hget
          rw [herr, specProcess, if_neg hne]
          rw [hsh] at hout
          rw [hout]
          simp
  · have hsh : specHeader has_header reader = [] := by
      rw [specHeader, if_neg hh]
    have herr : (specLoadAgg has_header strat build reader).errors =
        (specProcess strat [] build reader 0).2 := by
      rw [specLoadAgg.eq_def, if_neg hh]
    constructor
    · intro e he
      rw [herr] at he
      obtain ⟨hge, row, hget, hne, hout⟩ :=
        specProcess_errors_mem strat [] build reader 0 e he
      refine ⟨row, ?_, hne, by simp [hh], by rw [hsh]; exact hout⟩
      simpa using hget
    · intro hcontra
      exact absurd hcontra hh

/-- Witness for the C9 theorem: header row consumed at index 0, failing
first data row reported at `line_number` 1. -/
theorem read_rows_error_line_numbers_witness :
    read_rows Bool.true Bool.true (MappingStrategy.byModelFieldOrder ["a"])
        (fun _ => (Except.error () : Except Unit Nat)) [["h"], ["x"]] =
      Except.ok ⟨[], [⟨1, RowError.validation ()⟩], ["h"]⟩ ∧
    (⟨[], [⟨1, RowError.validation ()⟩], ["h"]⟩ :
        CSVLoaderResult Nat Unit).errors.head? =
      Option.some ⟨1, RowError.validation ()⟩ :=
  ⟨by rfl,
    (read_rows_error_line_numbers (MappingStrategy.byModelFieldOrder ["a"])
      (fun _ => (Except.error () : Except Unit Nat)) Bool.true [["h"], ["x"]]
      ⟨[], [⟨1, RowError.validation ()⟩], ["h"]⟩ (by rfl)).2 rfl ["x"]
      (RowError.validation ()) (by decide) (by decide) (by rfl)⟩

/-- C5: with the header-based strategy holding a captured (non-empty) header,
`create_model_param_dict` raises `IndexOutOfHeaderBounds` iff the row has
strictly more cells than the header has columns (header-cell stripping does
not change the column count); and the loader treats that error exactly like a
row validation failure: in aggregate mode it is wrapped in a
`CSVValidationError` and appended to the error list (the row contributing no
record), in fail-fast mode that `CSVValidationError` is raised. -/
theorem byHeader_out_of_bounds (remap : Option (List HeaderRemapField))
    (hrow row : List String) (h : hrow ≠ []) :
    ((create_model_param_dict (MappingStrategy.byHeader remap)
        (hrow.map pyStrip) row =
      Except.error MappingStrategyError.indexOutOfHeaderBounds) ↔
      hrow.length < row.length) ∧
    (∀ (build : List (String × String) → Except ε α)
        (rest : List (List String)), hrow.length < row.length →
      read_rows Bool.true Bool.true (MappingStrategy.byHeader remap) build
          (hrow :: row :: rest) =
        Except.ok
          ⟨(specProcess (MappingStrategy.byHeader remap) (hrow.map pyStrip)
              build rest 2).1,
            ⟨1, RowError.mapping MappingStrategyError.indexOutOfHeaderBounds⟩ ::
              (specProcess (MappingStrategy.byHeader remap) (hrow.map pyStrip)
                build rest 2).2,
            hrow.map pyStrip⟩ ∧
      read_rows Bool.true Bool.false (MappingStrategy.byHeader remap) build
          (hrow :: row :: rest) =
        Except.error
          ⟨1, RowError.mapping MappingStrategyError.indexOutOfHeaderBounds⟩) := by
  have hmapne : hrow.map pyStrip ≠ [] := by
    intro hc
    exact h (List.map_eq_nil_iff.mp hc)
  have hlen : (hrow.map pyStrip).length = hrow.length := List.length_map _ _
  constructor
  · constructor
    · intro hc
      rw [create_model_param_dict, if_neg hmapne] at hc
      by_cases hlt : (hrow.map pyStrip).length < row.length
      · rw [← hlen]
        exact hlt
      · rw [if_neg hlt] at hc
        exact absurd hc (by simp)
    · intro hlt
      rw [create_model_param_dict, if_neg hmapne, if_pos (by rw [hlen]; exact hlt)]
  · intro build rest hlt
    have hrowne : row ≠ [] := by
      intro hc
      rw [hc] at hlt
      simp at hlt
    have hout : rowOutcome (MappingStrategy.byHeader remap) (hrow.map pyStrip)
        build row =
        Except.error (RowError.mapping
          MappingStrategyError.indexOutOfHeaderBounds) := by
      rw [rowOutcome, create_model_param_dict, if_neg hmapne,
        if_pos (by rw [hlen]; exact hlt)]
    constructor
    · rw [read_rows, read_rows_go, if_pos ⟨rfl, rfl⟩,
        read_rows_go_agg Bool.true (MappingStrategy.byHeader remap) build
          (row :: rest) 1 (hrow.map pyStrip) _ (by simp)]
      rw [specProcess, if_neg hrowne]
      simp only [hout]
      simp
    · rw [read_rows, read_rows_go, if_pos ⟨rfl, rfl⟩,
        read_rows_go_ff Bool.true (MappingStrategy.byHeader remap) build
          (row :: rest) 1 (hrow.map pyStrip) _ (by simp)]
      rw [specProcess, if_neg hrowne]
      simp only [hout]

/-- Witness for the C5 theorem: header `[x]`, row `[1, 2]`. -/
theorem byHeader_out_of_bounds_witness :
    read_rows Bool.true Bool.true (MappingStrategy.byHeader Option.none)
        (fun _ => (Except.ok 0 : Except Unit Nat)) [["x"], ["1", "2"]] =
      Except.ok
        ⟨(specProcess (MappingStrategy.byHeader Option.none)
            (["x"].map pyStrip) (fun _ => (Except.ok 0 : Except Unit Nat))
            [] 2).1,
          ⟨1, RowError.mapping MappingStrategyError.indexOutOfHeaderBounds⟩ ::
            (specProcess (MappingStrategy.byHeader Option.none)
              (["x"].map pyStrip) (fun _ => (Except.ok 0 : Except Unit Nat))
              [] 2).2,
          ["x"].map pyStrip⟩ ∧
    read_rows Bool.true Bool.false (MappingStrategy.byHeader Option.none)
        (fun _ => (Except.ok 0 : Except Unit Nat)) [["x"], ["1", "2"]] =
      Except.error
        ⟨1, RowError.mapping MappingStrategyError.indexOutOfHeaderBounds⟩ :=
  (byHeader_out_of_bounds Option.none ["x"] ["1", "2"] (by decide)).2
    (fun _ => (Except.ok 0 : Except Unit Nat)) [] (by decide)

/-- C7 counterexample: a zero-length first row with header mode on IS
consumed as the header (the header branch of `read_rows` precedes the
empty-row skip).  With source `[[], ["x"]]` the empty row fills the header
slot (captured header `[]`) and `["x"]` is processed as data, whereas with
source `[["x"]]` the row `["x"]` is the header; so the zero-length row was
not skipped entirely. -/
theorem empty_first_row_header_cex :
    read_rows Bool.true Bool.true (MappingStrategy.byModelFieldOrder ["a"])
        (fun kw => (Except.ok kw : Except Unit (List (String × String))))
        [[], ["x"]] =
      Except.ok ⟨[[("a", "x")]], [], []⟩ ∧
    read_rows Bool.true Bool.true (MappingStrategy.byModelFieldOrder ["a"])
        (fun kw => (Except.ok kw : Except Unit (List (String × String))))
        [["x"]] =
      Except.ok ⟨[], [], ["x"]⟩ :=
  ⟨rfl, rfl⟩

/-- C7 (amended): a zero-length row at any non-header position (enumeration
index ≥ 1, or any index when header mode is off) is skipped entirely — it
produces no record and no error and only advances the line counter; a
zero-length first row with header mode on is instead consumed as the header
and captured as the empty header. -/
theorem empty_rows_skipped (has_header aggregate : Bool)
    (strat : MappingStrategy)
    (build : List (String × String) → Except ε α) :
    (∀ (rows : List (List String)) (n : Nat) (hdr : List String)
        (acc : CSVLoaderResult α ε), ¬(has_header = Bool.true ∧ n = 0) →
      read_rows_go has_header aggregate strat build ([] :: rows) n hdr acc =
        read_rows_go has_header aggregate strat build rows (n + 1) hdr acc) ∧
    (∀ rows : List (List String),
      read_rows Bool.true aggregate strat build ([] :: rows) =
        read_rows_go Bool.true aggregate strat build rows 1 [] ⟨[], [], []⟩) ∧
    (∀ rows : List (List String),
      read_rows Bool.false Bool.true strat build ([] :: rows) =
        Except.ok ⟨(specProcess strat [] build rows 1).1,
          (specProcess strat [] build rows 1).2, []⟩) := by
  refine ⟨?_, ?_, ?_⟩
  · intro rows n hdr acc h
    rw [read_rows_go, if_neg h, if_pos rfl]
  · intro rows
    rw [read_rows, read_rows_go, if_pos ⟨rfl, rfl⟩]
    rfl
  · intro rows
    rw [read_rows, read_rows_go, if_neg (by simp), if_pos rfl,
      read_rows_go_agg Bool.false strat build rows 1 [] _ (by simp)]
    simp

/-- Witness for the amended C7 theorem: one zero-length row at index 0 with
header mode off is skipped, leaving only the advanced index. -/
theorem empty_rows_skipped_witness :
    read_rows_go Bool.false Bool.true (MappingStrategy.byModelFieldOrder ["a"])
        (fun _ => (Except.ok 0 : Except Unit Nat)) [[]] 0 [] ⟨[], [], []⟩ =
      read_rows_go Bool.false Bool.true (MappingStrategy.byModelFieldOrder ["a"])
        (fun _ => (Except.ok 0 : Except Unit Nat)) [] 1 [] ⟨[], [], []⟩ :=
  (empty_rows_skipped Bool.false Bool.true
      (MappingStrategy.byModelFieldOrder ["a"])
      (fun _ => (Except.ok 0 : Except Unit Nat))).1 [] 0 [] ⟨[], [], []⟩
    (by simp)

/-! ### `CSVRows` field queries (csv_loader.py 93-106)

`CSVRows` is a list of models; attribute access `getattr(row, field_name)`
is abstracted as a function from a model and a field name to a value. -/

/-- `CSVRows.get_field_values`: all values of the named field, in row
order. -/
def get_field_values (getattr : M → String → V) (rows : List M)
    (field_name : String) : List V :=
  rows.map (fun row => getattr row field_name)

/-- Python's `value in list`: a linear scan with `==`. -/
def pyIn [DecidableEq V] (v : V) : List V → Bool
  | [] => Bool.false
  | x :: xs => if v = x then Bool.true else pyIn v xs

/-- `CSVRows.field_has_duplicates`: `value in self.get_field_values(...)`. -/
def field_has_duplicates [DecidableEq V] (getattr : M → String → V)
    (rows : List M) (field_name : String) (value : V) : Bool :=
  pyIn value (get_field_values getattr rows field_name)

theorem pyIn_iff_mem [DecidableEq V] (v : V) (l : List V) :
    pyIn v l = Bool.true ↔ v ∈ l := by
  induction l with
  | nil => simp [pyIn]
  | cons x xs ih =>
    rw [pyIn]
    by_cases h : v = x
    · simp [h]
    · rw [if_neg h]
      simp [ih, h]

/-- C10: `field_has_duplicates` is a pure membership test on the field's
values — it returns true iff the value occurs at least once, and hence it
returns true even for a value occurring exactly once (not actually
duplicated). -/
theorem field_has_duplicates_is_membership [DecidableEq V]
    (getattr : M → String → V) (rows : List M) (field_name : String)
    (value : V) :
    (field_has_duplicates getattr rows field_name value = Bool.true ↔
      value ∈ get_field_values getattr rows field_name) ∧
    ((get_field_values getattr rows field_name).count value = 1 →
      field_has_duplicates getattr rows field_name value = Bool.true) := by
  constructor
  · exact pyIn_iff_mem value (get_field_values getattr rows field_name)
  · intro hc
    rw [field_has_duplicates, pyIn_iff_mem]
    exact List.count_pos_iff.mp (by omega)

/-- Witness for the C10 theorem: value `5` occurs exactly once, yet
`field_has_duplicates` reports true. -/
theorem field_has_duplicates_is_membership_witness :
    (field_has_duplicates (fun (r : Nat) (_ : String) => r) [5, 7] "f" 5 =
        Bool.true ↔ 5 ∈ get_field_values (fun (r : Nat) (_ : String) => r)
          [5, 7] "f") ∧
    ((get_field_values (fun (r : Nat) (_ : String) => r) [5, 7] "f").count 5
        = 1 →
      field_has_duplicates (fun (r : Nat) (_ : String) => r) [5, 7] "f" 5 =
        Bool.true) :=
  field_has_duplicates_is_membership (fun (r : Nat) (_ : String) => r)
    [5, 7] "f" 5
